import Mathlib

/-!
Verification development for the keyboard-arbitration core of the
typing-tutor repository (src/src/util/keyboard.py, src/src/main.py).

The Python source is shallowly embedded in Lean:

* `is_keyboard` embeds keyboard.py:8-22, as a function of the device's
  capability table (evdev's `device.capabilities()` is modelled as an
  association list from event-type code to the list of supported codes).
* `discover_available_keyboards` embeds keyboard.py:25-86.  The OS is
  modelled by candidate lists: the `/dev/input/by-id` entries (after
  `realpath`, with the `startswith('/dev/input/event')` flag) and the
  `evdev.list_devices()` entries.  Each candidate carries an oracle
  describing what happens when `InputDevice(path)` is executed for it:
  the open raises, the open succeeds but `device.capabilities()` raises
  inside `is_keyboard`, or the open succeeds and yields a capability
  table.  Every successful open allocates a fresh file descriptor.
  All opens, closes, swallowed open-errors and prints are recorded in an
  event log so that resource and diagnostic claims are observable.
* `processEvent`, `processBatch`, `processReady`, `runCycle`, `runLoop`
  embed the body of `monitor_keyboards_thread` (keyboard.py:89-202);
  the environment of each `while` iteration (scan candidates, the
  `select.select` outcome, per-descriptor read outcomes) is a `CycleEnv`
  and a whole run is driven by a script of cycles.
* `finalCleanup` embeds the exit cleanup, keyboard.py:204-214.
* `mainInit` / `spawnMonitor` / `sysRun` embed the thread start in
  src/src/main.py:49-90: `current_player_registering`, `is_running`
  are immutable Python values passed by value into the thread, while
  `player_keyboards` is a shared mutable dict.
-/

namespace TypingTutor

/-! ### evdev constants (Linux input event codes used by the source) -/

def EV_KEY : Nat := 1
def KEY_A : Nat := 30
def KEY_Z : Nat := 44
def KEY_SPACE : Nat := 57
def KEY_ENTER : Nat := 28
def KEY_1 : Nat := 2

/-- The capability table of an evdev device: `device.capabilities()`,
an association from event-type code to the list of supported codes. -/
abbrev Caps := List (Nat × List Nat)

/-- Lookup `device.capabilities()[k]`: the code list associated with
event type `k` (empty if absent). -/
def capLookup (caps : Caps) (k : Nat) : List Nat :=
  match caps.find? (fun p => p.1 = k) with
  | some p => p.2
  | none => []

/-- Embeds `is_keyboard` (keyboard.py:8-22): the device must support
`EV_KEY`, and at least one of `KEY_A`, `KEY_Z`, `KEY_SPACE`,
`KEY_ENTER`, `KEY_1` must be in its `EV_KEY` code list. -/
def is_keyboard (caps : Caps) : Bool :=
  if (caps.find? (fun p => p.1 = EV_KEY)).isNone then false
  else if [KEY_A, KEY_Z, KEY_SPACE, KEY_ENTER, KEY_1].any
      (fun k => decide (k ∈ capLookup caps EV_KEY)) then true
  else false

/-- The reference key set checked by `is_keyboard` (keyboard.py:20). -/
def referenceKeys : List Nat := [KEY_A, KEY_Z, KEY_SPACE, KEY_ENTER, KEY_1]

theorem find?_isSome_iff_mem_keys (caps : Caps) (k : Nat) :
    (caps.find? (fun p => p.1 = k)).isSome = true ↔ k ∈ caps.map Prod.fst := by
  induction caps with
  | nil => simp [List.find?]
  | cons p rest ih =>
    by_cases h : p.1 = k
    · simp [List.find?, h]
    · have hb : (fun p : Nat × List Nat => decide (p.1 = k)) p = false := by
        simp [h]
      simp only [List.find?, hb, List.map_cons, List.mem_cons]
      rw [ih]
      constructor
      · intro hm; exact Or.inr hm
      · intro hm
        rcases hm with hm | hm
        · exact absurd hm.symm h
        · exact hm

/-- C8: the classifier returns `true` iff the device advertises
`EV_KEY` capability and its `EV_KEY` code list contains at least one
of the reference keys.  In this embedding `is_keyboard` is a pure
function of the capability table, mirroring that the Python function
only queries `device.capabilities()` and performs no writes, opens or
closes. -/
theorem c8_is_keyboard_iff (caps : Caps) :
    is_keyboard caps = true ↔
      (EV_KEY ∈ caps.map Prod.fst ∧
        ∃ k ∈ referenceKeys, k ∈ capLookup caps EV_KEY) := by
  unfold is_keyboard
  by_cases h : (caps.find? (fun p => p.1 = EV_KEY)).isNone
  · simp only [h, if_true]
    constructor
    · intro hfalse; exact absurd hfalse (by simp)
    · rintro ⟨hmem, -⟩
      have := (find?_isSome_iff_mem_keys caps EV_KEY).mpr hmem
      rw [Option.isNone_iff_eq_none] at h
      rw [h] at this
      simp at this
  · simp only [h, if_false]
    have hmem : EV_KEY ∈ caps.map Prod.fst := by
      apply (find?_isSome_iff_mem_keys caps EV_KEY).mp
      cases hh : (caps.find? (fun p => p.1 = EV_KEY)) with
      | none => rw [hh] at h; simp at h
      | some v => simp [hh]
    constructor
    · intro hh
      refine ⟨hmem, ?_⟩
      by_cases hany : [KEY_A, KEY_Z, KEY_SPACE, KEY_ENTER, KEY_1].any
          (fun k => decide (k ∈ capLookup caps EV_KEY))
      · rw [List.any_eq_true] at hany
        obtain ⟨k, hk, hkm⟩ := hany
        exact ⟨k, hk, of_decide_eq_true hkm⟩
      · rw [if_neg hany] at hh; exact absurd hh (by simp)
    · rintro ⟨-, k, hk, hkm⟩
      have hany : [KEY_A, KEY_Z, KEY_SPACE, KEY_ENTER, KEY_1].any
          (fun k => decide (k ∈ capLookup caps EV_KEY)) = true := by
        rw [List.any_eq_true]
        exact ⟨k, hk, decide_eq_true hkm⟩
      simp [hany]

/-! ### Devices, candidates, and the observable event log -/

/-- An open evdev handle (`InputDevice`): stable path, OS file
descriptor, capability table, and whether `O_NONBLOCK` has been set
on the descriptor (keyboard.py:77-79). -/
structure Dev where
  path : String
  fd : Nat
  caps : Caps
  nonBlocking : Bool
deriving Repr, DecidableEq

/-- Oracle for what executing `InputDevice(path)` (and then
`is_keyboard(dev)`) does for one scan candidate:
* `openFails` — the constructor raises (permissions, vanished device);
* `classifyRaises` — the open succeeds, but `device.capabilities()`
  raises inside `is_keyboard` afterwards;
* `ok caps` — the open succeeds and the device reports `caps`. -/
inductive OpenResult where
  | openFails
  | classifyRaises
  | ok (caps : Caps)
deriving Repr, DecidableEq

/-- One scan candidate: its resolved event path and the open oracle.
`isEventPath` records, for a `/dev/input/by-id` entry, whether the
`realpath` result `startswith('/dev/input/event')` (keyboard.py:44);
entries of `evdev.list_devices()` always satisfy it. -/
structure Candidate where
  path : String
  result : OpenResult
  isEventPath : Bool
deriving Repr, DecidableEq

/-- Observable events of an execution: handle opens and closes, an
exception swallowed by `except Exception: pass` during a scan open
(`openError`), a `print` diagnostic (`diag`), a call to
`discover_available_keyboards` recording the ledger size at call time
(`scan`), a deferred UI notification via `root.after` (`notify`), and
a `close()` that raised and was swallowed (`closeError`). -/
inductive LogEv where
  | opened (d : Dev)
  | closed (d : Dev)
  | openError (path : String)
  | diag (msg : String)
  | scan (ledgerLen : Nat)
  | notify (player : Nat)
  | closeError (d : Dev)
deriving Repr, DecidableEq

/-- File descriptors of handles that were opened, per the log. -/
def openedFds (log : List LogEv) : List Nat :=
  log.filterMap (fun ev => match ev with | .opened d => some d.fd | _ => none)

/-- File descriptors of handles that were closed, per the log. -/
def closedFds (log : List LogEv) : List Nat :=
  log.filterMap (fun ev => match ev with | .closed d => some d.fd | _ => none)

/-- The printed diagnostics in a log. -/
def diags (log : List LogEv) : List String :=
  log.filterMap (fun ev => match ev with | .diag m => some m | _ => none)

/-- The ledger sizes recorded at each `discover_available_keyboards`
call in a log. -/
def scans (log : List LogEv) : List Nat :=
  log.filterMap (fun ev => match ev with | .scan n => some n | _ => none)

/-- Devices on which a `close()` was attempted (whether or not the
close itself raised), per the log. -/
def attemptedCloseDevs (log : List LogEv) : List Dev :=
  log.filterMap (fun ev =>
    match ev with
    | .closed d => some d
    | .closeError d => some d
    | _ => none)

/-! ### Device Scanner: `discover_available_keyboards` (keyboard.py:25-86) -/

/-- Python dict assignment `by_id_devices[k] = v`: replace the value
in place if the key is present, otherwise append. -/
def assocUpdate : List (String × Dev) → String → Dev → List (String × Dev)
  | [], k, v => [(k, v)]
  | (k', v') :: rest, k, v =>
      if k' = k then (k, v) :: rest else (k', v') :: assocUpdate rest k v

/-- The shared per-candidate body of both scan loops
(keyboard.py:45-53 and 59-66): `try: dev = InputDevice(path);
if is_keyboard(dev): by_id_devices[dev.path] = dev else: dev.close()
except Exception: pass`.  Returns the updated `by_id_devices`, the
next fresh descriptor, and the log of this step.  Note the two leak
sources faithfully modelled: a `classifyRaises` open lands in the
`except: pass` with the handle neither stored nor closed, and a dict
overwrite drops the previously stored open handle. -/
def tryOpenCandidate (byId : List (String × Dev)) (fd : Nat) (c : Candidate) :
    List (String × Dev) × Nat × List LogEv :=
  match c.result with
  | .openFails => (byId, fd, [.openError c.path])
  | .classifyRaises => (byId, fd + 1, [.opened ⟨c.path, fd, [], false⟩, .openError c.path])
  | .ok caps =>
      let dev : Dev := ⟨c.path, fd, caps, false⟩
      if is_keyboard caps then (assocUpdate byId c.path dev, fd + 1, [.opened dev])
      else (byId, fd + 1, [.opened dev, .closed dev])

/-- The `/dev/input/by-id` scan loop (keyboard.py:40-53): entries whose
resolved path is not under `/dev/input/event` are skipped before any
open. -/
def scanPhase1 : List (String × Dev) → Nat → List Candidate →
    List (String × Dev) × Nat × List LogEv
  | byId, fd, [] => (byId, fd, [])
  | byId, fd, c :: cs =>
      if c.isEventPath then
        let r := tryOpenCandidate byId fd c
        let r2 := scanPhase1 r.1 r.2.1 cs
        (r2.1, r2.2.1, r.2.2 ++ r2.2.2)
      else scanPhase1 byId fd cs

/-- The `evdev.list_devices()` fallback loop (keyboard.py:57-66): a
path already recorded in `by_id_devices` is skipped without opening. -/
def scanPhase2 : List (String × Dev) → Nat → List Candidate →
    List (String × Dev) × Nat × List LogEv
  | byId, fd, [] => (byId, fd, [])
  | byId, fd, c :: cs =>
      if c.path ∈ byId.map Prod.fst then scanPhase2 byId fd cs
      else
        let r := tryOpenCandidate byId fd c
        let r2 := scanPhase2 r.1 r.2.1 cs
        (r2.1, r2.2.1, r.2.2 ++ r2.2.2)

/-- The final processing loop (keyboard.py:72-84): a recorded device
whose path is already assigned is closed; otherwise its descriptor is
switched to non-blocking and it is added to `available_devices`
keyed by descriptor. -/
def scanPhase3 (assigned : List String) :
    List (String × Dev) → List (Nat × Dev) × List LogEv
  | [] => ([], [])
  | (p, d) :: rest =>
      if p ∈ assigned then
        let r := scanPhase3 assigned rest
        (r.1, .closed d :: r.2)
      else
        let r := scanPhase3 assigned rest
        ((d.fd, { d with nonBlocking := true }) :: r.1, r.2)

/-- Result of a `discover_available_keyboards` call: the returned
`{fd: InputDevice}` mapping, the observable log, and the next fresh
descriptor. -/
structure DiscoverResult where
  available : List (Nat × Dev)
  log : List LogEv
  nextFd : Nat
deriving Repr, DecidableEq

/-- Embeds `discover_available_keyboards(player_keyboards)`
(keyboard.py:25-86).  `byIdCands` are the `/dev/input/by-id` entries
after `realpath`, `listCands` the `evdev.list_devices()` entries;
`assigned_paths` is computed from `player_keyboards` exactly as at
keyboard.py:69. -/
def discover_available_keyboards (byIdCands listCands : List Candidate)
    (player_keyboards : List (Nat × Dev)) (fd0 : Nat) : DiscoverResult :=
  let r1 := scanPhase1 [] fd0 byIdCands
  let r2 := scanPhase2 r1.1 r1.2.1 listCands
  let assigned := player_keyboards.map (fun p => p.2.path)
  let r3 := scanPhase3 assigned r2.1
  ⟨r3.1, r1.2.2 ++ (r2.2.2 ++ r3.2), r2.2.1⟩

/-! ### Arbitrator: `monitor_keyboards_thread` (keyboard.py:89-214) -/

/-- A raw input event as read from a device: `{type, value}`.  For
`EV_KEY` events `categorize(event).keystate` equals `event.value`
(`0` up, `1` down = `data.key_down`, `2` hold), so the guard at
keyboard.py:164-166 is `typ = EV_KEY ∧ value = 1`. -/
structure KEvent where
  typ : Nat
  value : Nat
deriving Repr, DecidableEq

/-- The thread-local state of `monitor_keyboards_thread`:
`current_player_registering` and `is_running` are the function's local
parameters (Python passes the int and bool by value at
main.py:71-76), `player_keyboards` is the shared dict (the ledger),
`open_devices` the working set, and `nextFd` the descriptor allocator
threaded through the scans. -/
structure MonState where
  current : Nat
  ledger : List (Nat × Dev)
  running : Bool
  openDevs : List (Nat × Dev)
  nextFd : Nat
deriving Repr, DecidableEq

/-- Paths of the devices currently held in the ledger
(`[d.path for d in player_keyboards.values()]`, keyboard.py:171). -/
def ledgerPaths (s : MonState) : List String :=
  s.ledger.map (fun p => p.2.path)

/-- Outcome of the `select.select` call (keyboard.py:137-154). -/
inductive SelectRes where
  | ok (ready : List Nat)
  | valueError (msg : String)
  | otherError (msg : String)
deriving Repr, DecidableEq

/-- Outcome of `dev.read()` for one ready descriptor
(keyboard.py:163, 184-198). -/
inductive ReadRes where
  | events (evs : List KEvent)
  | wouldBlock
  | osError (msg : String)
  | otherError (msg : String)
deriving Repr, DecidableEq

/-- The environment of one `while` iteration: what the OS presents to
the scanner, what `select.select` returns, and what each ready
descriptor's `read()` yields (descriptors not listed read as
`BlockingIOError`, i.e. no pending events). -/
structure CycleEnv where
  byIdCands : List Candidate
  listCands : List Candidate
  selectRes : SelectRes
  readRes : List (Nat × ReadRes)
deriving Repr, DecidableEq

/-- Embeds `open_devices.get(fd)` (keyboard.py:157). -/
def lookupFd (l : List (Nat × Dev)) (fd : Nat) : Option Dev :=
  (l.find? (fun p => p.1 = fd)).map Prod.snd

/-- The scripted outcome of `dev.read()` on `fd`. -/
def lookupRead (l : List (Nat × ReadRes)) (fd : Nat) : ReadRes :=
  match l.find? (fun p => p.1 = fd) with
  | some p => p.2
  | none => .wouldBlock

/-- Embeds the per-event body of the `for event in dev.read()` loop
(keyboard.py:163-181).  Returns the new state, whether this event
completed registration (the code's `break` at line 181 after setting
`is_running = False`), and the log (the key-press print, the
assignment print, the deferred `root.after` notification, and the
completion print). -/
def processEvent (s : MonState) (dev : Dev) (e : KEvent) :
    MonState × Bool × List LogEv :=
  if e.typ = EV_KEY ∧ e.value = 1 then
    if s.current ≤ 2 ∧ dev.path ∉ ledgerPaths s then
      let c' := s.current + 1
      let s' : MonState :=
        { s with ledger := s.ledger ++ [(s.current, dev)], current := c',
                 running := if 2 < c' then false else s.running }
      if 2 < c' then
        (s', true, [.diag "key press detected", .diag "assigned player", .notify c',
                    .diag "both players registered"])
      else
        (s', false, [.diag "key press detected", .diag "assigned player", .notify c'])
    else (s, false, [.diag "key press detected"])
  else (s, false, [])

/-- One device's pending-event batch (the `for event in dev.read()`
loop), stopping at the completion `break`. -/
def processBatch : MonState → Dev → List KEvent → MonState × List LogEv
  | s, _, [] => (s, [])
  | s, dev, e :: rest =>
      let r := processEvent s dev e
      if r.2.1 then (r.1, r.2.2)
      else
        let r2 := processBatch r.1 dev rest
        (r2.1, r.2.2 ++ r2.2)

/-- The `for fd in rlist` loop (keyboard.py:156-198): skip descriptors
no longer in `open_devices`; on events, process the batch and stop if
`is_running` went false (line 182-183); on `BlockingIOError`, continue;
on `OSError`, print, close and drop the device, and break (line
186-195); on any other error, print and continue (line 196-198). -/
def processReady : MonState → List (Nat × ReadRes) → List Nat →
    MonState × List LogEv
  | s, _, [] => (s, [])
  | s, reads, fd :: rest =>
      match lookupFd s.openDevs fd with
      | none => processReady s reads rest
      | some dev =>
          match lookupRead reads fd with
          | .events evs =>
              let r := processBatch s dev evs
              if r.1.running = false then (r.1, r.2)
              else
                let r2 := processReady r.1 reads rest
                (r2.1, r.2 ++ r2.2)
          | .wouldBlock => processReady s reads rest
          | .osError m =>
              ({ s with openDevs := s.openDevs.filter (fun p => p.1 ≠ fd) },
               [.diag ("oserror reading device: " ++ m), .closed dev])
          | .otherError m =>
              let r2 := processReady s reads rest
              (r2.1, .diag ("error processing event: " ++ m) :: r2.2)

/-- The scan-and-diff prologue of a cycle (keyboard.py:107-124): call
`discover_available_keyboards`, close working-set handles absent from
the fresh result, and add fresh handles not already present.  The log
starts with a `scan` event recording the ledger size at the call. -/
def refreshDevs (s : MonState) (env : CycleEnv) : MonState × List LogEv :=
  let dr := discover_available_keyboards env.byIdCands env.listCands s.ledger s.nextFd
  let newly := dr.available
  let stale := s.openDevs.filter (fun p => p.1 ∉ newly.map Prod.fst)
  let kept := s.openDevs.filter (fun p => p.1 ∈ newly.map Prod.fst)
  let added := newly.filter (fun p => p.1 ∉ kept.map Prod.fst)
  ({ s with openDevs := kept ++ added, nextFd := dr.nextFd },
   .scan s.ledger.length :: (dr.log ++ stale.map (fun p => .closed p.2)))

/-- One iteration of the `while is_running` loop (keyboard.py:100-202).
Returns the new state, the log, and whether the loop continues: the
top-of-loop `while is_running` test and the locked
`current_player_registering > 2` break (lines 100-103) end the loop;
an empty working set sleeps and continues (126-129); a `select`
`ValueError` prints, closes and clears the working set, and continues
(138-149); any other `select` error prints and continues (150-154);
otherwise the ready descriptors are processed. -/
def runCycle (s : MonState) (env : CycleEnv) : MonState × List LogEv × Bool :=
  if s.running = false then (s, [], false)
  else if 2 < s.current then (s, [], false)
  else
    let r := refreshDevs s env
    let s1 := r.1
    if s1.openDevs.isEmpty then (s1, r.2, true)
    else
      match env.selectRes with
      | .valueError m =>
          ({ s1 with openDevs := [] },
           r.2 ++ (.diag ("select valueerror: " ++ m) ::
             s1.openDevs.map (fun p => .closed p.2)), true)
      | .otherError m =>
          (s1, r.2 ++ [.diag ("select error: " ++ m)], true)
      | .ok ready =>
          let r2 := processReady s1 env.readRes ready
          (r2.1, r.2 ++ r2.2, true)

/-- The whole `while is_running` loop driven by a script of cycle
environments; the run ends when the loop breaks or the script is
exhausted (the log is then a prefix of the execution's log). -/
def runLoop : MonState → List CycleEnv → MonState × List LogEv
  | s, [] => (s, [])
  | s, env :: rest =>
      let r := runCycle s env
      if r.2.2 then
        let r2 := runLoop r.1 rest
        (r2.1, r.2.1 ++ r2.2)
      else (r.1, r.2.1)

/-- Embeds `dev.close()` on one device: raises iff the oracle
`failing` lists its descriptor. -/
def closeDev (failing : List Nat) (d : Dev) : Except String Unit :=
  if d.fd ∈ failing then .error "close failed" else .ok ()

/-- Embeds the exit cleanup (keyboard.py:204-214): every device in
`open_devices.values()` and then every device in
`player_keyboards.values()` gets its own `try: dev.close() except
Exception: pass`.  The function is total: an individual raising
`close()` is swallowed and the remaining devices are still visited,
and nothing propagates to the caller. -/
def finalCleanup (failing : List Nat) (s : MonState) : List LogEv :=
  (s.openDevs.map Prod.snd ++ s.ledger.map Prod.snd).map (fun d =>
    match closeDev failing d with
    | .ok _ => .closed d
    | .error _ => .closeError d)

/-- The full thread body: the monitoring loop followed by the exit
cleanup (keyboard.py:95-214). -/
def monitor_keyboards_thread (s0 : MonState) (script : List CycleEnv)
    (failing : List Nat) : MonState × List LogEv :=
  let r := runLoop s0 script
  (r.1, r.2 ++ (.diag "keyboard monitoring thread finished" :: finalCleanup failing r.1))

/-! ### Thread start from `main.py` (src/src/main.py:49-90) -/

/-- The module-level globals of `main.py` (lines 6-15). -/
structure MainGlobals where
  playerKeyboards : List (Nat × Dev)
  currentPlayerRegistering : Nat
  isRunning : Bool
deriving Repr, DecidableEq

/-- Initial globals: empty ledger, player 1 registering, running. -/
def mainInit : MainGlobals := ⟨[], 1, true⟩

/-- Thread start (main.py:71-76): `current_player_registering` (int)
and `is_running` (bool) are immutable Python objects passed by value,
so the thread gets its own `current` and `running` initialised to the
globals' current values; `player_keyboards` is a dict, shared by
reference, so the thread's `ledger` aliases the global dict. -/
def spawnMonitor (g : MainGlobals) : MonState :=
  ⟨g.currentPlayerRegistering, g.playerKeyboards, g.isRunning, [], 0⟩

/-- The monitor thread's state at its start in `main.start`. -/
def initMonState : MonState := spawnMonitor mainInit

/-- The observable joint state after running the monitor thread:
`main.py` never assigns the module-global `is_running` after its
initialisation (the `is_running = False` at keyboard.py:180 rebinds
the thread's local parameter, and no statement of `main.py` writes
the global), so the global keeps its initial value; the shared ledger
dict is the thread's ledger. -/
structure SysState where
  monitor : MonState
  monitorLog : List LogEv
  mainIsRunning : Bool
deriving Repr, DecidableEq

/-- Run `main.start`'s spawned monitor thread over a script. -/
def sysRun (script : List CycleEnv) (failing : List Nat) : SysState :=
  let r := monitor_keyboards_thread initMonState script failing
  ⟨r.1, r.2, mainInit.isRunning⟩

/-- The foreground periodic check `check_game_status_and_exit`
(main.py:79-86): it destroys the windows and quits exactly when the
module-global `is_running` it reads is false. -/
def check_game_status_closes_windows (s : SysState) : Bool :=
  !s.mainIsRunning

/-! ### Concrete fixtures used by witnesses and counterexamples -/

/-- A keyboard-like capability table: supports `EV_KEY` with `KEY_A`. -/
def kbCaps : Caps := [(1, [30])]

/-- A by-id candidate for event path `e1` that opens as a keyboard. -/
def candA : Candidate := ⟨"e1", .ok kbCaps, true⟩

/-- A by-id candidate for event path `e2` that opens as a keyboard. -/
def candB : Candidate := ⟨"e2", .ok kbCaps, true⟩

/-- A cycle in which both keyboards are discovered, both are ready,
and each delivers one key-down event. -/
def envBoth : CycleEnv :=
  ⟨[candA, candB], [], .ok [0, 1],
   [(0, .events [⟨1, 1⟩]), (1, .events [⟨1, 1⟩])]⟩

/-! ### Claim C5: release and auto-repeat events cause no transition -/

/-- C5: processing an event whose value is release (`0`) or
auto-repeat (`2`) leaves the whole thread state (ledger, slot
counter, running flag) unchanged, and any event that does change the
state is a key event with the pressed value (`1`): the guard at
keyboard.py:164-166 admits only `type = EV_KEY` with
`keystate = key_down`. -/
theorem c5_release_repeat_no_transition (s : MonState) (dev : Dev) (e : KEvent) :
    ((e.value = 0 ∨ e.value = 2) → (processEvent s dev e).1 = s) ∧
    ((processEvent s dev e).1 ≠ s → e.typ = EV_KEY ∧ e.value = 1) := by
  constructor
  · intro hv
    have hng : ¬ (e.typ = EV_KEY ∧ e.value = 1) := by
      rintro ⟨-, h1⟩
      rcases hv with h | h <;> omega
    unfold processEvent
    rw [if_neg hng]
  · intro hne
    by_contra hcon
    apply hne
    unfold processEvent
    rw [if_neg hcon]

/-- Witness for C5 at a concrete release event. -/
theorem c5_witness :
    (processEvent initMonState ⟨"e1", 0, kbCaps, true⟩ ⟨1, 0⟩).1 = initMonState :=
  (c5_release_repeat_no_transition initMonState ⟨"e1", 0, kbCaps, true⟩ ⟨1, 0⟩).1
    (Or.inl rfl)

/-! ### Claim C1: the running flag is not a shared cell -/

/-- C1 evaluated at the failing input (two keyboards each delivering a
key-down, so the thread fills the final slot and executes
`is_running = False` at keyboard.py:180): the thread's local flag
becomes false, but the module-global `is_running` that
`check_game_status_and_exit` (main.py:79-86) reads is still true, so
the foreground never observes the stop signal — the two flags are
independent copies, not one shared cell. -/
theorem c1_running_flag_is_duplicated :
    (sysRun [envBoth] []).monitor.ledger.length = 2 ∧
    (sysRun [envBoth] []).monitor.running = false ∧
    (sysRun [envBoth] []).mainIsRunning = true ∧
    check_game_status_closes_windows (sysRun [envBoth] []) = false := by
  decide

/-! ### Claims C10 and C4: the exit cleanup (keyboard.py:204-214) -/

theorem attemptedCloseDevs_map_close (failing : List Nat) (l : List Dev) :
    attemptedCloseDevs (l.map (fun d =>
      match closeDev failing d with
      | .ok _ => LogEv.closed d
      | .error _ => LogEv.closeError d)) = l := by
  induction l with
  | nil => rfl
  | cons d rest ih =>
      simp only [List.map_cons, attemptedCloseDevs, List.filterMap_cons] at *
      cases hc : closeDev failing d <;> simp [hc, ih]

/-- C10: whatever subset of `close()` calls raises, the final cleanup
attempts a `close()` on every device of the working set and on every
device of the ledger, in that order; each close sits in its own
`try/except Exception: pass`, so a raising close is swallowed, the
remaining devices are still visited, and the cleanup (a total
function in this embedding) never propagates an exception. -/
theorem c10_cleanup_attempts_every_close (failing : List Nat) (s : MonState) :
    attemptedCloseDevs (finalCleanup failing s) =
      s.openDevs.map Prod.snd ++ s.ledger.map Prod.snd := by
  unfold finalCleanup
  exact attemptedCloseDevs_map_close failing _

/-- A ledger-held device used by the C4 counterexample. -/
def devLedgerA : Dev := ⟨"e1", 0, kbCaps, true⟩

/-- The thread state at loop exit used by the C4 counterexample:
player 1's keyboard is in the ledger. -/
def cleanupExitState : MonState := ⟨3, [(1, devLedgerA)], false, [], 5⟩

/-- C4 counterexample: at a concrete exit state whose ledger holds
`devLedgerA`, the exit cleanup does close `devLedgerA` — the second
loop at keyboard.py:211-214 closes every `player_keyboards` value, so
ledger-held devices do not remain open, contrary to the claim. -/
theorem c4_counterexample :
    devLedgerA ∈ cleanupExitState.ledger.map Prod.snd ∧
    devLedgerA ∈ attemptedCloseDevs (finalCleanup [] cleanupExitState) := by
  decide

/-- C4 amended: on loop exit the cleanup closes every handle of the
unassigned working set and every device held in the ledger
(keyboard.py:206-210 and 211-214). -/
theorem c4_cleanup_closes_working_set_and_ledger (s : MonState) (d : Dev)
    (h : d ∈ s.openDevs.map Prod.snd ∨ d ∈ s.ledger.map Prod.snd) :
    d ∈ attemptedCloseDevs (finalCleanup [] s) := by
  unfold finalCleanup
  rw [attemptedCloseDevs_map_close]
  rw [List.mem_append]
  exact h

/-- Witness for the amended C4 at a concrete exit state. -/
theorem c4_witness :
    devLedgerA ∈ attemptedCloseDevs (finalCleanup [] cleanupExitState) :=
  c4_cleanup_closes_working_set_and_ledger cleanupExitState devLedgerA
    (Or.inr (by decide))

/-! ### Claim C2: ledger invariants of the arbitration step -/

/-- The Arbitrator's state invariant: the slot counter is one past the
ledger size, ledger slots are exactly `1, 2, …, len` in order, and
ledger device paths are pairwise distinct. -/
def stateInv (s : MonState) : Prop :=
  s.current = s.ledger.length + 1 ∧
  (ledgerPaths s).Nodup ∧
  s.ledger.map Prod.fst = List.range' 1 s.ledger.length

theorem initMonState_inv : stateInv initMonState := by
  refine ⟨rfl, ?_, rfl⟩
  simp [ledgerPaths, initMonState, spawnMonitor, mainInit]

theorem processEvent_state_cases (s : MonState) (dev : Dev) (e : KEvent) :
    (processEvent s dev e).1 = s ∨
    ((e.typ = EV_KEY ∧ e.value = 1) ∧ s.current ≤ 2 ∧ dev.path ∉ ledgerPaths s ∧
      (processEvent s dev e).1 =
        { s with ledger := s.ledger ++ [(s.current, dev)], current := s.current + 1,
                 running := if 2 < s.current + 1 then false else s.running }) := by
  unfold processEvent
  by_cases hg : e.typ = EV_KEY ∧ e.value = 1
  · by_cases hg2 : s.current ≤ 2 ∧ dev.path ∉ ledgerPaths s
    · refine Or.inr ⟨hg, hg2.1, hg2.2, ?_⟩
      rw [if_pos hg, if_pos hg2]
      by_cases hc : 2 < s.current + 1
      · rw [if_pos hc]
      · rw [if_neg hc]
    · rw [if_pos hg, if_neg hg2]
      exact Or.inl rfl
  · rw [if_neg hg]
    exact Or.inl rfl

theorem processEvent_inv (s : MonState) (dev : Dev) (e : KEvent)
    (h : stateInv s) : stateInv (processEvent s dev e).1 := by
  obtain ⟨h1, h2, h3⟩ := h
  rcases processEvent_state_cases s dev e with hc | ⟨-, -, hfresh, hc⟩
  · rw [hc]; exact ⟨h1, h2, h3⟩
  · rw [hc]
    refine ⟨by simp [h1], ?_, ?_⟩
    · have : ledgerPaths
          { s with ledger := s.ledger ++ [(s.current, dev)], current := s.current + 1,
                   running := if 2 < s.current + 1 then false else s.running } =
          ledgerPaths s ++ [dev.path] := by
        simp [ledgerPaths]
      rw [this]
      simp only [List.nodup_append, List.nodup_cons, List.not_mem_nil, List.nodup_nil]
      refine ⟨h2, by simp, ?_⟩
      intro a ha hb
      simp only [List.mem_singleton] at hb
      subst hb
      exact hfresh ha
    · simp only [List.map_append, List.map_cons, List.map_nil, List.length_append,
        List.length_cons, List.length_nil]
      rw [h3, h1]
      have : List.range' 1 (s.ledger.length + 1) =
          List.range' 1 s.ledger.length ++ [1 + 1 * s.ledger.length] :=
        List.range'_concat 1 s.ledger.length
      rw [this]
      congr 1
      simp [Nat.add_comm]

theorem foldl_processEvent_inv (l : List (Dev × KEvent)) (s : MonState)
    (h : stateInv s) :
    stateInv (l.foldl (fun s p => (processEvent s p.1 p.2).1) s) := by
  induction l generalizing s with
  | nil => exact h
  | cons p rest ih => exact ih _ (processEvent_inv _ _ _ h)

/-- Processing a whole sequence of events from the thread's initial
state (the closure of keyboard.py:163-181 over arbitrary event
deliveries). -/
def applyEvents (l : List (Dev × KEvent)) : MonState :=
  l.foldl (fun s p => (processEvent s p.1 p.2).1) initMonState

theorem applyEvents_inv (l : List (Dev × KEvent)) : stateInv (applyEvents l) :=
  foldl_processEvent_inv l initMonState initMonState_inv

theorem processEvent_assigned_inert (s : MonState) (dev : Dev) (e : KEvent)
    (h : dev.path ∈ ledgerPaths s) : (processEvent s dev e).1 = s := by
  rcases processEvent_state_cases s dev e with hc | ⟨-, -, hfresh, -⟩
  · exact hc
  · exact absurd h hfresh

theorem processEvent_frozen (s : MonState) (dev : Dev) (e : KEvent)
    (h : ¬ s.current ≤ 2) : (processEvent s dev e).1 = s := by
  rcases processEvent_state_cases s dev e with hc | ⟨-, hle, -, -⟩
  · exact hc
  · exact absurd hle h

/-- C2: for every sequence of events processed from the thread's
initial state, a device path occupies at most one ledger slot, the
slots are exactly `1, …, len` filled in arrival order, once both
slots (N = 2) are filled no event writes the ledger again, and a
key-down re-delivered from an already-assigned device leaves the
whole state unchanged (the membership guard of keyboard.py:171). -/
theorem c2_ledger_invariants (l : List (Dev × KEvent)) :
    (ledgerPaths (applyEvents l)).Nodup ∧
    (applyEvents l).ledger.map Prod.fst =
      List.range' 1 (applyEvents l).ledger.length ∧
    ((applyEvents l).ledger.length = 2 → ∀ dev e,
        (processEvent (applyEvents l) dev e).1.ledger = (applyEvents l).ledger) ∧
    (∀ dev e, dev.path ∈ ledgerPaths (applyEvents l) →
        (processEvent (applyEvents l) dev e).1 = applyEvents l) := by
  obtain ⟨h1, h2, h3⟩ := applyEvents_inv l
  refine ⟨h2, h3, ?_, ?_⟩
  · intro hlen dev e
    have hfull : ¬ (applyEvents l).current ≤ 2 := by omega
    rw [processEvent_frozen _ _ _ hfull]
  · intro dev e hmem
    exact processEvent_assigned_inert _ _ _ hmem

/-- The event sequence used by the C2 and C6 witnesses: two distinct
keyboards each deliver one key-down. -/
def eventsBoth : List (Dev × KEvent) :=
  [(⟨"e1", 0, kbCaps, true⟩, ⟨1, 1⟩), (⟨"e2", 1, kbCaps, true⟩, ⟨1, 1⟩)]

/-- Witness for C2: after two key-downs both slots are filled, and a
re-delivered key-down from the slot-1 device does not change the
ledger. -/
theorem c2_witness :
    (applyEvents eventsBoth).ledger.length = 2 ∧
    (processEvent (applyEvents eventsBoth) ⟨"e1", 0, kbCaps, true⟩ ⟨1, 1⟩).1.ledger =
      (applyEvents eventsBoth).ledger :=
  ⟨by decide, (c2_ledger_invariants eventsBoth).2.2.1 (by decide) _ _⟩

/-! ### Claim C6: no scan after the ledger is complete -/

theorem scans_append (a b : List LogEv) : scans (a ++ b) = scans a ++ scans b := by
  simp [scans, List.filterMap_append]

theorem diags_append (a b : List LogEv) : diags (a ++ b) = diags a ++ diags b := by
  simp [diags, List.filterMap_append]

theorem openedFds_append (a b : List LogEv) :
    openedFds (a ++ b) = openedFds a ++ openedFds b := by
  simp [openedFds, List.filterMap_append]

theorem closedFds_append (a b : List LogEv) :
    closedFds (a ++ b) = closedFds a ++ closedFds b := by
  simp [closedFds, List.filterMap_append]

theorem scans_cons_diag (m : String) (l : List LogEv) :
    scans (.diag m :: l) = scans l := rfl

theorem scans_cons_closed (d : Dev) (l : List LogEv) :
    scans (.closed d :: l) = scans l := rfl

theorem scans_cons_scan (n : Nat) (l : List LogEv) :
    scans (.scan n :: l) = n :: scans l := rfl

theorem scans_tryOpenCandidate (byId : List (String × Dev)) (fd : Nat)
    (c : Candidate) : scans (tryOpenCandidate byId fd c).2.2 = [] := by
  obtain ⟨p, res, ok⟩ := c
  cases res with
  | openFails => rfl
  | classifyRaises => rfl
  | ok caps =>
      unfold tryOpenCandidate
      by_cases h : is_keyboard caps = true <;> simp [h, scans]

theorem scans_scanPhase1 (cs : List Candidate) (byId : List (String × Dev))
    (fd : Nat) : scans (scanPhase1 byId fd cs).2.2 = [] := by
  induction cs generalizing byId fd with
  | nil => rfl
  | cons c cs ih =>
      unfold scanPhase1
      by_cases h : c.isEventPath = true
      · simp only [h, if_true]
        rw [scans_append, scans_tryOpenCandidate, ih]
        rfl
      · simp only [h, if_false]
        exact ih _ _

theorem scans_scanPhase2 (cs : List Candidate) (byId : List (String × Dev))
    (fd : Nat) : scans (scanPhase2 byId fd cs).2.2 = [] := by
  induction cs generalizing byId fd with
  | nil => rfl
  | cons c cs ih =>
      unfold scanPhase2
      by_cases h : c.path ∈ byId.map Prod.fst
      · simp only [h, if_true]
        exact ih _ _
      · simp only [h, if_false]
        rw [scans_append, scans_tryOpenCandidate, ih]
        rfl

theorem scans_scanPhase3 (assigned : List String) (byId : List (String × Dev)) :
    scans (scanPhase3 assigned byId).2 = [] := by
  induction byId with
  | nil => rfl
  | cons p rest ih =>
      obtain ⟨k, d⟩ := p
      unfold scanPhase3
      by_cases h : k ∈ assigned
      · simp only [h, if_true]
        rw [scans_cons_closed]
        exact ih
      · simp only [h, if_false]
        exact ih

theorem scans_discover (byIdCands listCands : List Candidate)
    (pk : List (Nat × Dev)) (fd0 : Nat) :
    scans (discover_available_keyboards byIdCands listCands pk fd0).log = [] := by
  unfold discover_available_keyboards
  rw [scans_append, scans_append, scans_scanPhase1, scans_scanPhase2, scans_scanPhase3]
  rfl

theorem scans_closedMap (l : List (Nat × Dev)) :
    scans (l.map (fun p => LogEv.closed p.2)) = [] := by
  induction l with
  | nil => rfl
  | cons p rest ih => rw [List.map_cons, scans_cons_closed]; exact ih

theorem scans_processEvent (s : MonState) (dev : Dev) (e : KEvent) :
    scans (processEvent s dev e).2.2 = [] := by
  unfold processEvent
  by_cases h1 : e.typ = EV_KEY ∧ e.value = 1
  · by_cases h2 : s.current ≤ 2 ∧ dev.path ∉ ledgerPaths s
    · by_cases h3 : 2 < s.current + 1 <;> simp [h1, h2, h3, scans]
    · simp [h1, h2, scans]
  · simp [h1, scans]

theorem scans_processBatch (evs : List KEvent) (s : MonState) (dev : Dev) :
    scans (processBatch s dev evs).2 = [] := by
  induction evs generalizing s with
  | nil => rfl
  | cons e rest ih =>
      unfold processBatch
      dsimp only
      split
      · exact scans_processEvent s dev e
      · show scans ((processEvent s dev e).2.2 ++
            (processBatch (processEvent s dev e).1 dev rest).2) = []
        rw [scans_append, scans_processEvent, ih]
        rfl

theorem scans_processReady (ready : List Nat) (s : MonState)
    (reads : List (Nat × ReadRes)) :
    scans (processReady s reads ready).2 = [] := by
  induction ready generalizing s with
  | nil => rfl
  | cons fd rest ih =>
      unfold processReady
      cases hf : lookupFd s.openDevs fd with
      | none => simp only [hf]; exact ih s
      | some dev =>
          simp only [hf]
          cases hr : lookupRead reads fd with
          | events evs =>
              dsimp only
              split
              · exact scans_processBatch evs s dev
              · show scans ((processBatch s dev evs).2 ++
                    (processReady (processBatch s dev evs).1 reads rest).2) = []
                rw [scans_append, scans_processBatch, ih]
                rfl
          | wouldBlock => exact ih s
          | osError m => rfl
          | otherError m =>
              show scans (.diag ("error processing event: " ++ m) ::
                  (processReady s reads rest).2) = []
              rw [scans_cons_diag]
              exact ih s

theorem scans_refreshDevs (s : MonState) (env : CycleEnv) :
    scans (refreshDevs s env).2 = [s.ledger.length] := by
  show scans (.scan s.ledger.length ::
      ((discover_available_keyboards env.byIdCands env.listCands s.ledger s.nextFd).log ++
        (s.openDevs.filter (fun p => p.1 ∉
          (discover_available_keyboards env.byIdCands env.listCands s.ledger
            s.nextFd).available.map Prod.fst)).map (fun p => .closed p.2))) =
    [s.ledger.length]
  rw [scans_cons_scan, scans_append, scans_discover, scans_closedMap]
  rfl

theorem refreshDevs_ledger (s : MonState) (env : CycleEnv) :
    (refreshDevs s env).1.ledger = s.ledger := rfl

theorem refreshDevs_current (s : MonState) (env : CycleEnv) :
    (refreshDevs s env).1.current = s.current := rfl

theorem scans_runCycle_stopped (s : MonState) (env : CycleEnv)
    (h : s.running = false ∨ 2 < s.current) :
    scans (runCycle s env).2.1 = [] := by
  unfold runCycle
  by_cases h1 : s.running = false
  · simp [h1, scans]
  · rcases h with h | h
    · exact absurd h h1
    · simp [h1, h, scans]

theorem scans_runCycle_active (s : MonState) (env : CycleEnv)
    (h1 : ¬ s.running = false) (h2 : ¬ 2 < s.current) :
    scans (runCycle s env).2.1 = [s.ledger.length] := by
  unfold runCycle
  rw [if_neg h1, if_neg h2]
  dsimp only
  split
  · exact scans_refreshDevs s env
  · split
    · show scans ((refreshDevs s env).2 ++
          (.diag _ :: (refreshDevs s env).1.openDevs.map (fun p => .closed p.2))) =
        [s.ledger.length]
      rw [scans_append, scans_refreshDevs, scans_cons_diag, scans_closedMap]
      rfl
    · show scans ((refreshDevs s env).2 ++ [.diag _]) = [s.ledger.length]
      rw [scans_append, scans_refreshDevs]
      rfl
    · show scans ((refreshDevs s env).2 ++
          (processReady (refreshDevs s env).1 env.readRes _).2) = [s.ledger.length]
      rw [scans_append, scans_refreshDevs, scans_processReady]
      rfl

theorem processBatch_inv (evs : List KEvent) (s : MonState) (dev : Dev)
    (h : stateInv s) : stateInv (processBatch s dev evs).1 := by
  induction evs generalizing s with
  | nil => exact h
  | cons e rest ih =>
      unfold processBatch
      by_cases hb : (processEvent s dev e).2.1 = true
      · simp only [hb, if_true]
        exact processEvent_inv _ _ _ h
      · simp only [hb, if_false]
        exact ih _ (processEvent_inv _ _ _ h)

theorem processReady_inv (ready : List Nat) (s : MonState)
    (reads : List (Nat × ReadRes)) (h : stateInv s) :
    stateInv (processReady s reads ready).1 := by
  induction ready generalizing s with
  | nil => exact h
  | cons fd rest ih =>
      unfold processReady
      cases hf : lookupFd s.openDevs fd with
      | none => simp only [hf]; exact ih s h
      | some dev =>
          simp only [hf]
          cases hr : lookupRead reads fd with
          | events evs =>
              simp only
              by_cases hb : (processBatch s dev evs).1.running = false
              · rw [if_pos hb]
                exact processBatch_inv evs s dev h
              · rw [if_neg hb]
                exact ih _ (processBatch_inv evs s dev h)
          | wouldBlock => exact ih s h
          | osError m => exact h
          | otherError m => exact ih s h

theorem runCycle_inv (s : MonState) (env : CycleEnv) (h : stateInv s) :
    stateInv (runCycle s env).1 := by
  unfold runCycle
  by_cases h1 : s.running = false
  · simp only [h1, if_true]; exact h
  · simp only [h1, if_false]
    by_cases h2 : 2 < s.current
    · simp only [h2, if_true]; exact h
    · simp only [h2, if_false]
      by_cases he : (refreshDevs s env).1.openDevs.isEmpty = true
      · simp only [he, if_true]; exact h
      · simp only [he, if_false]
        cases hs : env.selectRes with
        | ok ready => exact processReady_inv ready _ env.readRes h
        | valueError m => exact h
        | otherError m => exact h

theorem scans_runCycle_lt (s : MonState) (env : CycleEnv) (h : stateInv s)
    (n : Nat) (hn : n ∈ scans (runCycle s env).2.1) : n < 2 := by
  by_cases h1 : s.running = false
  · rw [scans_runCycle_stopped s env (Or.inl h1)] at hn
    simp at hn
  · by_cases h2 : 2 < s.current
    · rw [scans_runCycle_stopped s env (Or.inr h2)] at hn
      simp at hn
    · rw [scans_runCycle_active s env h1 h2] at hn
      simp only [List.mem_singleton] at hn
      subst hn
      have hc := h.1
      omega

theorem runLoop_scans_lt (script : List CycleEnv) (s : MonState)
    (h : stateInv s) (n : Nat) (hn : n ∈ scans (runLoop s script).2) : n < 2 := by
  induction script generalizing s with
  | nil => simp [runLoop, scans] at hn
  | cons env rest ih =>
      unfold runLoop at hn
      by_cases hc : (runCycle s env).2.2 = true
      · simp only [hc, if_true] at hn
        rw [scans_append] at hn
        rcases List.mem_append.mp hn with hmem | hmem
        · exact scans_runCycle_lt s env h n hmem
        · exact ih _ (runCycle_inv s env h) hmem
      · simp only [hc, if_false] at hn
        exact scans_runCycle_lt s env h n hn

/-- C6: in every execution of the monitoring loop started from
`main.start`'s initial state, every call to
`discover_available_keyboards` happens while the ledger holds fewer
than 2 entries; since the ledger only ever grows, once the final
(second) slot is assigned the loop never scans — and hence never
opens a device handle, all opens occurring inside the scanner —
again before exiting (the `while is_running` test at keyboard.py:100
and the registration-complete break at keyboard.py:101-103 both
precede the scan at keyboard.py:107). -/
theorem c6_no_scan_after_completion (script : List CycleEnv) (n : Nat)
    (h : n ∈ scans (runLoop initMonState script).2) : n < 2 :=
  runLoop_scans_lt script initMonState initMonState_inv n h

/-- Witness for C6: the two-keyboard script performs its single scan
with an empty ledger. -/
theorem c6_witness :
    0 ∈ scans (runLoop initMonState [envBoth]).2 ∧ 0 < 2 :=
  ⟨by decide, c6_no_scan_after_completion [envBoth] 0 (by decide)⟩

/-! ### Claim C3: handle-leak accounting in the scanner -/

theorem openedFds_cons_opened (d : Dev) (l : List LogEv) :
    openedFds (.opened d :: l) = d.fd :: openedFds l := rfl

theorem openedFds_cons_closed (d : Dev) (l : List LogEv) :
    openedFds (.closed d :: l) = openedFds l := rfl

theorem openedFds_cons_openError (p : String) (l : List LogEv) :
    openedFds (.openError p :: l) = openedFds l := rfl

theorem closedFds_cons_closed (d : Dev) (l : List LogEv) :
    closedFds (.closed d :: l) = d.fd :: closedFds l := rfl

theorem closedFds_cons_opened (d : Dev) (l : List LogEv) :
    closedFds (.opened d :: l) = closedFds l := rfl

theorem closedFds_cons_openError (p : String) (l : List LogEv) :
    closedFds (.openError p :: l) = closedFds l := rfl

theorem assocUpdate_append_of_not_mem (l : List (String × Dev)) (k : String)
    (v : Dev) (h : k ∉ l.map Prod.fst) : assocUpdate l k v = l ++ [(k, v)] := by
  induction l with
  | nil => rfl
  | cons p rest ih =>
      obtain ⟨k', v'⟩ := p
      simp only [List.map_cons, List.mem_cons, not_or] at h
      unfold assocUpdate
      rw [if_neg (fun hh => h.1 hh.symm), ih h.2]
      rfl

theorem tryOpenCandidate_openFails (byId : List (String × Dev)) (fd : Nat)
    (p : String) (ev : Bool) :
    tryOpenCandidate byId fd ⟨p, .openFails, ev⟩ = (byId, fd, [.openError p]) := rfl

theorem tryOpenCandidate_ok_kb (byId : List (String × Dev)) (fd : Nat)
    (p : String) (caps : Caps) (ev : Bool) (h : is_keyboard caps = true) :
    tryOpenCandidate byId fd ⟨p, .ok caps, ev⟩ =
      (assocUpdate byId p ⟨p, fd, caps, false⟩, fd + 1,
        [.opened ⟨p, fd, caps, false⟩]) := by
  unfold tryOpenCandidate
  dsimp only
  rw [if_pos h]

theorem tryOpenCandidate_ok_not_kb (byId : List (String × Dev)) (fd : Nat)
    (p : String) (caps : Caps) (ev : Bool) (h : ¬ is_keyboard caps = true) :
    tryOpenCandidate byId fd ⟨p, .ok caps, ev⟩ =
      (byId, fd + 1, [.opened ⟨p, fd, caps, false⟩, .closed ⟨p, fd, caps, false⟩]) := by
  unfold tryOpenCandidate
  dsimp only
  rw [if_neg h]

theorem scanPhase1_cons_true (byId : List (String × Dev)) (fd : Nat)
    (c : Candidate) (cs : List Candidate) (h : c.isEventPath = true) :
    scanPhase1 byId fd (c :: cs) =
      ((scanPhase1 (tryOpenCandidate byId fd c).1
          (tryOpenCandidate byId fd c).2.1 cs).1,
       (scanPhase1 (tryOpenCandidate byId fd c).1
          (tryOpenCandidate byId fd c).2.1 cs).2.1,
       (tryOpenCandidate byId fd c).2.2 ++
         (scanPhase1 (tryOpenCandidate byId fd c).1
            (tryOpenCandidate byId fd c).2.1 cs).2.2) := by
  conv_lhs => rw [scanPhase1]
  rw [if_pos h]

theorem scanPhase1_cons_false (byId : List (String × Dev)) (fd : Nat)
    (c : Candidate) (cs : List Candidate) (h : ¬ c.isEventPath = true) :
    scanPhase1 byId fd (c :: cs) = scanPhase1 byId fd cs := by
  conv_lhs => rw [scanPhase1]
  rw [if_neg h]

theorem scanPhase2_cons_mem (byId : List (String × Dev)) (fd : Nat)
    (c : Candidate) (cs : List Candidate) (h : c.path ∈ byId.map Prod.fst) :
    scanPhase2 byId fd (c :: cs) = scanPhase2 byId fd cs := by
  conv_lhs => rw [scanPhase2]
  rw [if_pos h]

theorem scanPhase2_cons_not_mem (byId : List (String × Dev)) (fd : Nat)
    (c : Candidate) (cs : List Candidate) (h : ¬ c.path ∈ byId.map Prod.fst) :
    scanPhase2 byId fd (c :: cs) =
      ((scanPhase2 (tryOpenCandidate byId fd c).1
          (tryOpenCandidate byId fd c).2.1 cs).1,
       (scanPhase2 (tryOpenCandidate byId fd c).1
          (tryOpenCandidate byId fd c).2.1 cs).2.1,
       (tryOpenCandidate byId fd c).2.2 ++
         (scanPhase2 (tryOpenCandidate byId fd c).1
            (tryOpenCandidate byId fd c).2.1 cs).2.2) := by
  conv_lhs => rw [scanPhase2]
  rw [if_neg h]

theorem scanPhase3_cons_assigned (assigned : List String) (k : String) (d : Dev)
    (rest : List (String × Dev)) (h : k ∈ assigned) :
    scanPhase3 assigned ((k, d) :: rest) =
      ((scanPhase3 assigned rest).1, .closed d :: (scanPhase3 assigned rest).2) := by
  conv_lhs => rw [scanPhase3]
  rw [if_pos h]

theorem scanPhase3_cons_not_assigned (assigned : List String) (k : String)
    (d : Dev) (rest : List (String × Dev)) (h : ¬ k ∈ assigned) :
    scanPhase3 assigned ((k, d) :: rest) =
      ((d.fd, { d with nonBlocking := true }) :: (scanPhase3 assigned rest).1,
        (scanPhase3 assigned rest).2) := by
  conv_lhs => rw [scanPhase3]
  rw [if_neg h]

/-- Leak accounting for the by-id scan loop: when no open is followed
by a raising classification and the by-id aliases resolve to pairwise
distinct paths (no dict overwrite), every opened descriptor is either
closed in this phase's log or recorded in the resulting
`by_id_devices`; the loop also never drops recorded entries. -/
theorem scanPhase1_noLeak (cs : List Candidate) (byId : List (String × Dev))
    (fd : Nat)
    (hcr : ∀ c ∈ cs, c.result ≠ OpenResult.classifyRaises)
    (hfresh : ∀ c ∈ cs, c.path ∉ byId.map Prod.fst)
    (hnd : (cs.map Candidate.path).Nodup) :
    (∀ p ∈ byId, p ∈ (scanPhase1 byId fd cs).1) ∧
    (∀ f ∈ openedFds (scanPhase1 byId fd cs).2.2,
      f ∈ closedFds (scanPhase1 byId fd cs).2.2 ∨
      f ∈ (scanPhase1 byId fd cs).1.map (fun p => p.2.fd)) := by
  induction cs generalizing byId fd with
  | nil =>
      exact ⟨fun p hp => hp, fun f hf => absurd hf (List.not_mem_nil f)⟩
  | cons c cs ih =>
      obtain ⟨cpath, cres, cev⟩ := c
      simp only [List.mem_cons, List.map_cons, List.nodup_cons] at hcr hfresh hnd
      have hcr' : ∀ c ∈ cs, c.result ≠ OpenResult.classifyRaises :=
        fun c hc => hcr c (Or.inr hc)
      have hfresh' : ∀ c ∈ cs, c.path ∉ byId.map Prod.fst :=
        fun c hc => hfresh c (Or.inr hc)
      by_cases hev : (⟨cpath, cres, cev⟩ : Candidate).isEventPath = true
      · rw [scanPhase1_cons_true byId fd _ cs hev]
        cases cres with
        | openFails =>
            rw [tryOpenCandidate_openFails]
            obtain ⟨ihp, ihl⟩ := ih byId fd hcr' hfresh' hnd.2
            refine ⟨ihp, fun f hf => ?_⟩
            rw [show openedFds ([LogEv.openError cpath] ++
                  (scanPhase1 byId fd cs).2.2) =
                openedFds (scanPhase1 byId fd cs).2.2 from rfl] at hf
            rw [show closedFds ([LogEv.openError cpath] ++
                  (scanPhase1 byId fd cs).2.2) =
                closedFds (scanPhase1 byId fd cs).2.2 from rfl]
            exact ihl f hf
        | classifyRaises => exact absurd rfl (hcr _ (Or.inl rfl))
        | ok caps =>
            by_cases hkb : is_keyboard caps = true
            · rw [tryOpenCandidate_ok_kb byId fd cpath caps cev hkb,
                assocUpdate_append_of_not_mem byId cpath _ (hfresh _ (Or.inl rfl))]
              set dv : Dev := ⟨cpath, fd, caps, false⟩ with hdv
              set byId2 := byId ++ [(cpath, dv)] with hbyId2
              have hfresh2 : ∀ c ∈ cs, c.path ∉ byId2.map Prod.fst := by
                intro c hc
                rw [hbyId2]
                simp only [List.map_append, List.map_cons, List.map_nil,
                  List.mem_append, List.mem_singleton, not_or]
                refine ⟨hfresh c (Or.inr hc), fun hh => ?_⟩
                exact hnd.1 (hh ▸ List.mem_map_of_mem Candidate.path hc)
              obtain ⟨ihp, ihl⟩ := ih byId2 (fd + 1) hcr' hfresh2 hnd.2
              constructor
              · intro p hp
                exact ihp p (List.mem_append_left _ hp)
              · intro f hf
                rw [show openedFds ([LogEv.opened dv] ++
                      (scanPhase1 byId2 (fd + 1) cs).2.2) =
                    fd :: openedFds (scanPhase1 byId2 (fd + 1) cs).2.2 from rfl] at hf
                rw [show closedFds ([LogEv.opened dv] ++
                      (scanPhase1 byId2 (fd + 1) cs).2.2) =
                    closedFds (scanPhase1 byId2 (fd + 1) cs).2.2 from rfl]
                rcases List.mem_cons.mp hf with hfd | hf2
                · right
                  have hmem : (cpath, dv) ∈ byId2 :=
                    List.mem_append_right _ (List.mem_singleton.mpr rfl)
                  have hin : dv.fd ∈ (scanPhase1 byId2 (fd + 1) cs).1.map
                      (fun p => p.2.fd) :=
                    List.mem_map.mpr ⟨(cpath, dv), ihp _ hmem, rfl⟩
                  subst hfd
                  exact hin
                · exact ihl f hf2
            · rw [tryOpenCandidate_ok_not_kb byId fd cpath caps cev hkb]
              set dv : Dev := ⟨cpath, fd, caps, false⟩ with hdv
              obtain ⟨ihp, ihl⟩ := ih byId (fd + 1) hcr' hfresh' hnd.2
              refine ⟨ihp, fun f hf => ?_⟩
              rw [show openedFds ([LogEv.opened dv, LogEv.closed dv] ++
                    (scanPhase1 byId (fd + 1) cs).2.2) =
                  fd :: openedFds (scanPhase1 byId (fd + 1) cs).2.2 from rfl] at hf
              rw [show closedFds ([LogEv.opened dv, LogEv.closed dv] ++
                    (scanPhase1 byId (fd + 1) cs).2.2) =
                  fd :: closedFds (scanPhase1 byId (fd + 1) cs).2.2 from rfl]
              rcases List.mem_cons.mp hf with hfd | hf2
              · exact Or.inl (hfd ▸ List.mem_cons_self _ _)
              · rcases ihl f hf2 with hcl | hin
                · exact Or.inl (List.mem_cons_of_mem _ hcl)
                · exact Or.inr hin
      · rw [scanPhase1_cons_false byId fd _ cs hev]
        exact ih byId fd hcr' hfresh' hnd.2

/-- Leak accounting for the fallback scan loop: its membership guard
prevents overwrites unconditionally, so only the
no-raising-classification hypothesis is needed. -/
theorem scanPhase2_noLeak (cs : List Candidate) (byId : List (String × Dev))
    (fd : Nat)
    (hcr : ∀ c ∈ cs, c.result ≠ OpenResult.classifyRaises) :
    (∀ p ∈ byId, p ∈ (scanPhase2 byId fd cs).1) ∧
    (∀ f ∈ openedFds (scanPhase2 byId fd cs).2.2,
      f ∈ closedFds (scanPhase2 byId fd cs).2.2 ∨
      f ∈ (scanPhase2 byId fd cs).1.map (fun p => p.2.fd)) := by
  induction cs generalizing byId fd with
  | nil =>
      exact ⟨fun p hp => hp, fun f hf => absurd hf (List.not_mem_nil f)⟩
  | cons c cs ih =>
      obtain ⟨cpath, cres, cev⟩ := c
      simp only [List.mem_cons] at hcr
      have hcr' : ∀ c ∈ cs, c.result ≠ OpenResult.classifyRaises :=
        fun c hc => hcr c (Or.inr hc)
      by_cases hmem : (⟨cpath, cres, cev⟩ : Candidate).path ∈ byId.map Prod.fst
      · rw [scanPhase2_cons_mem byId fd _ cs hmem]
        exact ih byId fd hcr'
      · rw [scanPhase2_cons_not_mem byId fd _ cs hmem]
        cases cres with
        | openFails =>
            rw [tryOpenCandidate_openFails]
            obtain ⟨ihp, ihl⟩ := ih byId fd hcr'
            refine ⟨ihp, fun f hf => ?_⟩
            rw [show openedFds ([LogEv.openError cpath] ++
                  (scanPhase2 byId fd cs).2.2) =
                openedFds (scanPhase2 byId fd cs).2.2 from rfl] at hf
            rw [show closedFds ([LogEv.openError cpath] ++
                  (scanPhase2 byId fd cs).2.2) =
                closedFds (scanPhase2 byId fd cs).2.2 from rfl]
            exact ihl f hf
        | classifyRaises => exact absurd (rfl) (hcr _ (Or.inl rfl))
        | ok caps =>
            by_cases hkb : is_keyboard caps = true
            · rw [tryOpenCandidate_ok_kb byId fd cpath caps cev hkb,
                assocUpdate_append_of_not_mem byId cpath _ hmem]
              set dv : Dev := ⟨cpath, fd, caps, false⟩ with hdv
              set byId2 := byId ++ [(cpath, dv)] with hbyId2
              obtain ⟨ihp, ihl⟩ := ih byId2 (fd + 1) hcr'
              constructor
              · intro p hp
                exact ihp p (List.mem_append_left _ hp)
              · intro f hf
                rw [show openedFds ([LogEv.opened dv] ++
                      (scanPhase2 byId2 (fd + 1) cs).2.2) =
                    fd :: openedFds (scanPhase2 byId2 (fd + 1) cs).2.2 from rfl] at hf
                rw [show closedFds ([LogEv.opened dv] ++
                      (scanPhase2 byId2 (fd + 1) cs).2.2) =
                    closedFds (scanPhase2 byId2 (fd + 1) cs).2.2 from rfl]
                rcases List.mem_cons.mp hf with hfd | hf2
                · right
                  have hmem2 : (cpath, dv) ∈ byId2 :=
                    List.mem_append_right _ (List.mem_singleton.mpr rfl)
                  have hin : dv.fd ∈ (scanPhase2 byId2 (fd + 1) cs).1.map
                      (fun p => p.2.fd) :=
                    List.mem_map.mpr ⟨(cpath, dv), ihp _ hmem2, rfl⟩
                  subst hfd
                  exact hin
                · exact ihl f hf2
            · rw [tryOpenCandidate_ok_not_kb byId fd cpath caps cev hkb]
              set dv : Dev := ⟨cpath, fd, caps, false⟩ with hdv
              obtain ⟨ihp, ihl⟩ := ih byId (fd + 1) hcr'
              refine ⟨ihp, fun f hf => ?_⟩
              rw [show openedFds ([LogEv.opened dv, LogEv.closed dv] ++
                    (scanPhase2 byId (fd + 1) cs).2.2) =
                  fd :: openedFds (scanPhase2 byId (fd + 1) cs).2.2 from rfl] at hf
              rw [show closedFds ([LogEv.opened dv, LogEv.closed dv] ++
                    (scanPhase2 byId (fd + 1) cs).2.2) =
                  fd :: closedFds (scanPhase2 byId (fd + 1) cs).2.2 from rfl]
              rcases List.mem_cons.mp hf with hfd | hf2
              · exact Or.inl (hfd ▸ List.mem_cons_self _ _)
              · rcases ihl f hf2 with hcl | hin
                · exact Or.inl (List.mem_cons_of_mem _ hcl)
                · exact Or.inr hin

/-- The final processing loop accounts for every recorded device:
each is either returned (same descriptor) or closed in this phase's
log. -/
theorem scanPhase3_accounts (assigned : List String)
    (byId : List (String × Dev)) :
    ∀ p ∈ byId, p.2.fd ∈ (scanPhase3 assigned byId).1.map Prod.fst ∨
      p.2.fd ∈ closedFds (scanPhase3 assigned byId).2 := by
  induction byId with
  | nil => intro p hp; exact absurd hp (List.not_mem_nil p)
  | cons q rest ih =>
      obtain ⟨k, d⟩ := q
      intro p hp
      by_cases h : k ∈ assigned
      · rw [scanPhase3_cons_assigned assigned k d rest h]
        rcases List.mem_cons.mp hp with hq | hp2
        · right
          rw [closedFds_cons_closed]
          exact hq ▸ List.mem_cons_self _ _
        · rcases ih p hp2 with hin | hcl
          · exact Or.inl hin
          · right
            rw [closedFds_cons_closed]
            exact List.mem_cons_of_mem _ hcl
      · rw [scanPhase3_cons_not_assigned assigned k d rest h]
        rcases List.mem_cons.mp hp with hq | hp2
        · left
          rw [List.map_cons]
          exact hq ▸ List.mem_cons_self _ _
        · rcases ih p hp2 with hin | hcl
          · exact Or.inl (List.mem_cons_of_mem _ hin)
          · exact Or.inr hcl

theorem scanPhase3_openedFds_nil (assigned : List String)
    (byId : List (String × Dev)) :
    openedFds (scanPhase3 assigned byId).2 = [] := by
  induction byId with
  | nil => rfl
  | cons q rest ih =>
      obtain ⟨k, d⟩ := q
      by_cases h : k ∈ assigned
      · rw [scanPhase3_cons_assigned assigned k d rest h, openedFds_cons_closed]
        exact ih
      · rw [scanPhase3_cons_not_assigned assigned k d rest h]
        exact ih

/-- C3 counterexample: for a single by-id candidate whose
classification raises after a successful open (keyboard.py:46-47 with
`device.capabilities()` raising inside `is_keyboard`), the opened
handle (descriptor 0) is neither in the returned mapping nor closed
before return — the `except Exception: pass` at keyboard.py:51-53
abandons it, so the claimed no-leak guarantee fails on this path. -/
theorem c3_counterexample :
    0 ∈ openedFds (discover_available_keyboards
        [⟨"e9", .classifyRaises, true⟩] [] [] 0).log ∧
    0 ∉ closedFds (discover_available_keyboards
        [⟨"e9", .classifyRaises, true⟩] [] [] 0).log ∧
    0 ∉ (discover_available_keyboards
        [⟨"e9", .classifyRaises, true⟩] [] [] 0).available.map Prod.fst := by
  decide

/-- C3 amended: when classification never raises on an opened handle
and the by-id aliases resolve to pairwise distinct event paths (so no
`by_id_devices` overwrite abandons an earlier open handle), every
device handle opened by `discover_available_keyboards` is either in
the returned mapping or closed before the function returns. -/
theorem c3_no_leak_without_classify_raise (byIdCands listCands : List Candidate)
    (pk : List (Nat × Dev)) (fd0 : Nat)
    (h1 : ∀ c ∈ byIdCands, c.result ≠ OpenResult.classifyRaises)
    (h2 : ∀ c ∈ listCands, c.result ≠ OpenResult.classifyRaises)
    (h3 : (byIdCands.map Candidate.path).Nodup) :
    ∀ f ∈ openedFds (discover_available_keyboards byIdCands listCands pk fd0).log,
      f ∈ closedFds (discover_available_keyboards byIdCands listCands pk fd0).log ∨
      f ∈ (discover_available_keyboards byIdCands listCands pk fd0).available.map
        Prod.fst := by
  intro f hf
  unfold discover_available_keyboards at *
  set r1 := scanPhase1 [] fd0 byIdCands with hr1
  set r2 := scanPhase2 r1.1 r1.2.1 listCands with hr2
  set assigned := pk.map (fun p => p.2.path) with hassigned
  set r3 := scanPhase3 assigned r2.1 with hr3
  obtain ⟨hp1, hl1⟩ := scanPhase1_noLeak byIdCands [] fd0 h1
    (fun c _ => List.not_mem_nil c.path) h3
  obtain ⟨hp2, hl2⟩ := scanPhase2_noLeak listCands r1.1 r1.2.1 h2
  rw [openedFds_append, openedFds_append] at hf
  rw [closedFds_append, closedFds_append]
  have hentry : ∀ q ∈ r2.1, f = q.2.fd →
      f ∈ closedFds r1.2.2 ++ (closedFds r2.2.2 ++ closedFds r3.2) ∨
      f ∈ r3.1.map Prod.fst := by
    intro q hq hfq
    rcases scanPhase3_accounts assigned r2.1 q hq with hin | hcl
    · exact Or.inr (hfq ▸ hin)
    · refine Or.inl (List.mem_append_right _ (List.mem_append_right _ ?_))
      exact hfq ▸ hcl
  rcases List.mem_append.mp hf with hf1 | hfrest
  · rcases hl1 f hf1 with hcl | hin
    · exact Or.inl (List.mem_append_left _ hcl)
    · obtain ⟨q, hq, hfq⟩ := List.mem_map.mp hin
      exact hentry q (hp2 q hq) hfq.symm
  · rcases List.mem_append.mp hfrest with hf2 | hf3
    · rcases hl2 f hf2 with hcl | hin
      · exact Or.inl (List.mem_append_right _ (List.mem_append_left _ hcl))
      · obtain ⟨q, hq, hfq⟩ := List.mem_map.mp hin
        exact hentry q hq hfq.symm
    · rw [scanPhase3_openedFds_nil] at hf3
      exact absurd hf3 (List.not_mem_nil f)

/-- Witness for the amended C3: a single healthy keyboard candidate,
whose opened descriptor ends up in the returned mapping. -/
theorem c3_witness :
    0 ∈ openedFds (discover_available_keyboards [candA] [] [] 0).log ∧
    (0 ∈ closedFds (discover_available_keyboards [candA] [] [] 0).log ∨
      0 ∈ (discover_available_keyboards [candA] [] [] 0).available.map Prod.fst) :=
  ⟨by decide, c3_no_leak_without_classify_raise [candA] [] [] 0
    (by decide) (by decide) (by decide) 0 (by decide)⟩

/-! ### Claim C7: scanner postcondition -/

theorem assocUpdate_mem (l : List (String × Dev)) (k : String) (v : Dev) :
    ∀ p ∈ assocUpdate l k v, p = (k, v) ∨ p ∈ l := by
  induction l with
  | nil =>
      intro p hp
      exact Or.inl (List.mem_singleton.mp hp)
  | cons q rest ih =>
      obtain ⟨k', v'⟩ := q
      intro p hp
      unfold assocUpdate at hp
      by_cases h : k' = k
      · rw [if_pos h] at hp
        rcases List.mem_cons.mp hp with h1 | h2
        · exact Or.inl h1
        · exact Or.inr (List.mem_cons_of_mem _ h2)
      · rw [if_neg h] at hp
        rcases List.mem_cons.mp hp with h1 | h2
        · exact Or.inr (h1 ▸ List.mem_cons_self _ _)
        · rcases ih p h2 with ha | hb
          · exact Or.inl ha
          · exact Or.inr (List.mem_cons_of_mem _ hb)

theorem assocUpdate_keys (l : List (String × Dev)) (k : String) (v : Dev) :
    (assocUpdate l k v).map Prod.fst =
      if k ∈ l.map Prod.fst then l.map Prod.fst else l.map Prod.fst ++ [k] := by
  induction l with
  | nil => simp [assocUpdate]
  | cons q rest ih =>
      obtain ⟨k', v'⟩ := q
      unfold assocUpdate
      by_cases h : k' = k
      · subst h
        rw [if_pos rfl]
        simp
      · rw [if_neg h]
        simp only [List.map_cons]
        rw [ih]
        by_cases hk : k ∈ rest.map Prod.fst
        · rw [if_pos hk, if_pos (List.mem_cons_of_mem _ hk)]
        · rw [if_neg hk, if_neg (fun hh => ?_)]
          · rfl
          · rcases List.mem_cons.mp hh with h1 | h2
            · exact h h1.symm
            · exact hk h2

/-- Invariant of the `by_id_devices` dict: each entry is keyed by its
device's path and holds a device that classified as a keyboard, and
keys are pairwise distinct. -/
def goodEntries (byId : List (String × Dev)) : Prop :=
  (∀ p ∈ byId, p.1 = p.2.path ∧ is_keyboard p.2.caps = true) ∧
  (byId.map Prod.fst).Nodup

theorem tryOpenCandidate_good (byId : List (String × Dev)) (fd : Nat)
    (c : Candidate) (h : goodEntries byId) :
    goodEntries (tryOpenCandidate byId fd c).1 := by
  obtain ⟨cpath, cres, cev⟩ := c
  cases cres with
  | openFails => exact h
  | classifyRaises => exact h
  | ok caps =>
      by_cases hkb : is_keyboard caps = true
      · rw [tryOpenCandidate_ok_kb _ _ _ _ _ hkb]
        constructor
        · intro p hp
          rcases assocUpdate_mem byId cpath _ p hp with heq | hmem
          · subst heq
            exact ⟨rfl, hkb⟩
          · exact h.1 p hmem
        · rw [assocUpdate_keys]
          by_cases hk : cpath ∈ byId.map Prod.fst
          · rw [if_pos hk]
            exact h.2
          · rw [if_neg hk]
            simp only [List.nodup_append, List.nodup_cons, List.not_mem_nil,
              not_false_iff, List.nodup_nil, and_true, true_and]
            refine ⟨h.2, ?_⟩
            intro a ha hb
            rw [List.mem_singleton] at hb
            subst hb
            exact hk ha
      · rw [tryOpenCandidate_ok_not_kb _ _ _ _ _ hkb]
        exact h

theorem scanPhase1_good (cs : List Candidate) (byId : List (String × Dev))
    (fd : Nat) (h : goodEntries byId) : goodEntries (scanPhase1 byId fd cs).1 := by
  induction cs generalizing byId fd with
  | nil => exact h
  | cons c cs ih =>
      by_cases hev : c.isEventPath = true
      · rw [scanPhase1_cons_true byId fd c cs hev]
        exact ih _ _ (tryOpenCandidate_good byId fd c h)
      · rw [scanPhase1_cons_false byId fd c cs hev]
        exact ih _ _ h

theorem scanPhase2_good (cs : List Candidate) (byId : List (String × Dev))
    (fd : Nat) (h : goodEntries byId) : goodEntries (scanPhase2 byId fd cs).1 := by
  induction cs generalizing byId fd with
  | nil => exact h
  | cons c cs ih =>
      by_cases hmem : c.path ∈ byId.map Prod.fst
      · rw [scanPhase2_cons_mem byId fd c cs hmem]
        exact ih _ _ h
      · rw [scanPhase2_cons_not_mem byId fd c cs hmem]
        exact ih _ _ (tryOpenCandidate_good byId fd c h)

theorem scanPhase3_entries (assigned : List String) (byId : List (String × Dev))
    (h : ∀ p ∈ byId, p.1 = p.2.path ∧ is_keyboard p.2.caps = true) :
    ∀ q ∈ (scanPhase3 assigned byId).1,
      is_keyboard q.2.caps = true ∧ q.2.path ∉ assigned ∧ q.2.nonBlocking = true := by
  induction byId with
  | nil =>
      intro q hq
      exact absurd hq (List.not_mem_nil q)
  | cons p rest ih =>
      obtain ⟨k, d⟩ := p
      have hd := h (k, d) (List.mem_cons_self _ _)
      have hrest : ∀ p ∈ rest, p.1 = p.2.path ∧ is_keyboard p.2.caps = true :=
        fun p hp => h p (List.mem_cons_of_mem _ hp)
      intro q hq
      by_cases hk : k ∈ assigned
      · rw [scanPhase3_cons_assigned assigned k d rest hk] at hq
        exact ih hrest q hq
      · rw [scanPhase3_cons_not_assigned assigned k d rest hk] at hq
        rcases List.mem_cons.mp hq with hq1 | hq2
        · subst hq1
          refine ⟨hd.2, ?_, rfl⟩
          rw [show ({ d with nonBlocking := true } : Dev).path = d.path from rfl]
          rw [← hd.1]
          exact hk
        · exact ih hrest q hq2

theorem scanPhase3_paths_sublist (assigned : List String)
    (byId : List (String × Dev)) (h : ∀ p ∈ byId, p.1 = p.2.path) :
    ((scanPhase3 assigned byId).1.map (fun q => q.2.path)).Sublist
      (byId.map Prod.fst) := by
  induction byId with
  | nil => exact List.Sublist.refl _
  | cons p rest ih =>
      obtain ⟨k, d⟩ := p
      have hk' : k = d.path := h (k, d) (List.mem_cons_self _ _)
      have hrest : ∀ p ∈ rest, p.1 = p.2.path :=
        fun p hp => h p (List.mem_cons_of_mem _ hp)
      by_cases hk : k ∈ assigned
      · rw [scanPhase3_cons_assigned assigned k d rest hk]
        exact (ih hrest).cons _
      · rw [scanPhase3_cons_not_assigned assigned k d rest hk]
        simp only [List.map_cons]
        rw [show ({ d with nonBlocking := true } : Dev).path = d.path from rfl, ← hk']
        exact (ih hrest).cons₂ _

theorem scanPhase3_assigned_closed (assigned : List String)
    (byId : List (String × Dev)) :
    ∀ p ∈ byId, p.1 ∈ assigned →
      LogEv.closed p.2 ∈ (scanPhase3 assigned byId).2 := by
  induction byId with
  | nil =>
      intro p hp
      exact absurd hp (List.not_mem_nil p)
  | cons q rest ih =>
      obtain ⟨k, d⟩ := q
      intro p hp hpa
      by_cases hk : k ∈ assigned
      · rw [scanPhase3_cons_assigned assigned k d rest hk]
        rcases List.mem_cons.mp hp with hq1 | hq2
        · subst hq1
          exact List.mem_cons_self _ _
        · exact List.mem_cons_of_mem _ (ih p hq2 hpa)
      · rw [scanPhase3_cons_not_assigned assigned k d rest hk]
        rcases List.mem_cons.mp hp with hq1 | hq2
        · subst hq1
          exact absurd hpa hk
        · exact ih p hq2 hpa

/-- C7: every device in the mapping returned by
`discover_available_keyboards` classified as a keyboard, has a path
not among the already-assigned paths, and has its descriptor in
non-blocking mode; the mapping holds at most one device per path
(duplicate aliases are recorded once in `by_id_devices`); and every
recorded device whose path is already assigned gets closed
(keyboard.py:83-84) and is excluded from the mapping. -/
theorem c7_scanner_postcondition (byIdCands listCands : List Candidate)
    (pk : List (Nat × Dev)) (fd0 : Nat) :
    (∀ q ∈ (discover_available_keyboards byIdCands listCands pk fd0).available,
        is_keyboard q.2.caps = true ∧
        q.2.path ∉ pk.map (fun p => p.2.path) ∧
        q.2.nonBlocking = true) ∧
    ((discover_available_keyboards byIdCands listCands pk fd0).available.map
        (fun q => q.2.path)).Nodup ∧
    (∀ p ∈ (scanPhase2 (scanPhase1 [] fd0 byIdCands).1
        (scanPhase1 [] fd0 byIdCands).2.1 listCands).1,
      p.1 ∈ pk.map (fun p => p.2.path) →
        LogEv.closed p.2 ∈
          (discover_available_keyboards byIdCands listCands pk fd0).log) := by
  have hgood0 : goodEntries ([] : List (String × Dev)) :=
    ⟨fun p hp => absurd hp (List.not_mem_nil p), List.nodup_nil⟩
  have hg1 := scanPhase1_good byIdCands [] fd0 hgood0
  have hg2 := scanPhase2_good listCands (scanPhase1 [] fd0 byIdCands).1
    (scanPhase1 [] fd0 byIdCands).2.1 hg1
  refine ⟨?_, ?_, ?_⟩
  · intro q hq
    have hq' : q ∈ (scanPhase3 (pk.map (fun p => p.2.path))
        (scanPhase2 (scanPhase1 [] fd0 byIdCands).1
          (scanPhase1 [] fd0 byIdCands).2.1 listCands).1).1 := hq
    exact scanPhase3_entries (pk.map (fun p => p.2.path)) _ hg2.1 q hq'
  · have hsub := scanPhase3_paths_sublist (pk.map (fun p => p.2.path)) _
      (fun p hp => (hg2.1 p hp).1)
    exact hg2.2.sublist hsub
  · intro p hp hassigned
    have hmem := scanPhase3_assigned_closed (pk.map (fun p => p.2.path)) _ p hp
      hassigned
    exact List.mem_append_right _ (List.mem_append_right _ hmem)

/-- An already-assigned ledger for the C7 witness: player 1 holds the
device at path `e1` (under a different descriptor). -/
def pkEx : List (Nat × Dev) := [(1, ⟨"e1", 9, kbCaps, true⟩)]

/-- Witness for C7: with `e1` assigned, the scan of two keyboards
returns only the `e2` device, a keyboard, unassigned, non-blocking. -/
theorem c7_witness :
    ((1 : Nat), (⟨"e2", 1, kbCaps, true⟩ : Dev)) ∈
      (discover_available_keyboards [candA, candB] [] pkEx 0).available ∧
    (is_keyboard (⟨"e2", 1, kbCaps, true⟩ : Dev).caps = true ∧
      (⟨"e2", 1, kbCaps, true⟩ : Dev).path ∉ pkEx.map (fun p => p.2.path) ∧
      (⟨"e2", 1, kbCaps, true⟩ : Dev).nonBlocking = true) :=
  ⟨by decide, (c7_scanner_postcondition [candA, candB] [] pkEx 0).1
    ((1 : Nat), (⟨"e2", 1, kbCaps, true⟩ : Dev)) (by decide)⟩

/-! ### Claim C9: which errors are surfaced as diagnostics -/

theorem diags_cons_diag (m : String) (l : List LogEv) :
    diags (.diag m :: l) = m :: diags l := rfl

theorem diags_cons_opened (d : Dev) (l : List LogEv) :
    diags (.opened d :: l) = diags l := rfl

theorem diags_cons_closed (d : Dev) (l : List LogEv) :
    diags (.closed d :: l) = diags l := rfl

theorem diags_cons_openError (p : String) (l : List LogEv) :
    diags (.openError p :: l) = diags l := rfl

theorem diags_tryOpenCandidate (byId : List (String × Dev)) (fd : Nat)
    (c : Candidate) : diags (tryOpenCandidate byId fd c).2.2 = [] := by
  obtain ⟨p, res, ev⟩ := c
  cases res with
  | openFails => rfl
  | classifyRaises => rfl
  | ok caps =>
      by_cases h : is_keyboard caps = true
      · rw [tryOpenCandidate_ok_kb _ _ _ _ _ h]
        rfl
      · rw [tryOpenCandidate_ok_not_kb _ _ _ _ _ h]
        rfl

theorem diags_scanPhase1 (cs : List Candidate) (byId : List (String × Dev))
    (fd : Nat) : diags (scanPhase1 byId fd cs).2.2 = [] := by
  induction cs generalizing byId fd with
  | nil => rfl
  | cons c cs ih =>
      by_cases hev : c.isEventPath = true
      · rw [scanPhase1_cons_true byId fd c cs hev]
        show diags ((tryOpenCandidate byId fd c).2.2 ++ _) = []
        rw [diags_append, diags_tryOpenCandidate, ih]
        rfl
      · rw [scanPhase1_cons_false byId fd c cs hev]
        exact ih _ _

theorem diags_scanPhase2 (cs : List Candidate) (byId : List (String × Dev))
    (fd : Nat) : diags (scanPhase2 byId fd cs).2.2 = [] := by
  induction cs generalizing byId fd with
  | nil => rfl
  | cons c cs ih =>
      by_cases hmem : c.path ∈ byId.map Prod.fst
      · rw [scanPhase2_cons_mem byId fd c cs hmem]
        exact ih _ _
      · rw [scanPhase2_cons_not_mem byId fd c cs hmem]
        show diags ((tryOpenCandidate byId fd c).2.2 ++ _) = []
        rw [diags_append, diags_tryOpenCandidate, ih]
        rfl

theorem diags_scanPhase3 (assigned : List String) (byId : List (String × Dev)) :
    diags (scanPhase3 assigned byId).2 = [] := by
  induction byId with
  | nil => rfl
  | cons q rest ih =>
      obtain ⟨k, d⟩ := q
      by_cases hk : k ∈ assigned
      · rw [scanPhase3_cons_assigned assigned k d rest hk, diags_cons_closed]
        exact ih
      · rw [scanPhase3_cons_not_assigned assigned k d rest hk]
        exact ih

theorem diags_discover (byIdCands listCands : List Candidate)
    (pk : List (Nat × Dev)) (fd0 : Nat) :
    diags (discover_available_keyboards byIdCands listCands pk fd0).log = [] := by
  unfold discover_available_keyboards
  rw [diags_append, diags_append, diags_scanPhase1, diags_scanPhase2, diags_scanPhase3]
  rfl

/-- C9 counterexample: a candidate whose open raises
(`DeviceOpenError`) is an error the scanner encounters, yet the
`except Exception: pass` at keyboard.py:51-53 prints nothing: the
scan's diagnostic output is empty while the swallowed error is
recorded in the execution — the error branch discards the error
silently, contrary to the claim. -/
theorem c9_counterexample :
    LogEv.openError "e9" ∈ (discover_available_keyboards
        [⟨"e9", .openFails, true⟩] [] [] 0).log ∧
    diags (discover_available_keyboards
        [⟨"e9", .openFails, true⟩] [] [] 0).log = [] := by
  decide

/-- C9 amended: the scanner surfaces no diagnostics at all — device
open and classification failures during scanning are silently
swallowed — while the monitoring loop's errors are surfaced as
printed diagnostics: multiplexer (`select`) errors (keyboard.py:140,
152) whenever the loop reaches the wait with a non-empty working
set, and read errors — an `OSError` from `dev.read()`
(keyboard.py:186-188) or any other exception during event processing
(keyboard.py:196-198) — whenever the loop reaches a monitored ready
descriptor whose read so fails. -/
theorem c9_scanner_silent_monitor_errors_surfaced :
    (∀ (byIdCands listCands : List Candidate) (pk : List (Nat × Dev)) (fd0 : Nat),
        diags (discover_available_keyboards byIdCands listCands pk fd0).log = []) ∧
    (∀ (s : MonState) (env : CycleEnv), s.running = true → ¬ 2 < s.current →
        (refreshDevs s env).1.openDevs.isEmpty = false →
        (∀ ready, env.selectRes ≠ SelectRes.ok ready) →
        diags (runCycle s env).2.1 ≠ []) ∧
    (∀ (s : MonState) (reads : List (Nat × ReadRes)) (fd : Nat) (rest : List Nat)
        (dev : Dev) (m : String),
        lookupFd s.openDevs fd = some dev →
        (lookupRead reads fd = ReadRes.osError m ∨
          lookupRead reads fd = ReadRes.otherError m) →
        diags (processReady s reads (fd :: rest)).2 ≠ []) := by
  refine ⟨diags_discover, ?_, ?_⟩
  · intro s env hrun hcur hne hsel
    unfold runCycle
    rw [if_neg (by rw [hrun]; exact fun hh => absurd hh (by decide))]
    rw [if_neg hcur]
    dsimp only
    rw [if_neg (by rw [hne]; exact fun hh => absurd hh (by decide))]
    cases hs : env.selectRes with
    | ok ready => exact absurd hs (hsel ready)
    | valueError m =>
        show diags ((refreshDevs s env).2 ++
            (.diag ("select valueerror: " ++ m) ::
              (refreshDevs s env).1.openDevs.map (fun p => .closed p.2))) ≠ []
        intro hnil
        have hmem : ("select valueerror: " ++ m) ∈
            diags ((refreshDevs s env).2 ++
              (.diag ("select valueerror: " ++ m) ::
                (refreshDevs s env).1.openDevs.map (fun p => .closed p.2))) := by
          rw [diags_append]
          refine List.mem_append_right _ ?_
          rw [diags_cons_diag]
          exact List.mem_cons_self _ _
        rw [hnil] at hmem
        exact absurd hmem (List.not_mem_nil _)
    | otherError m =>
        show diags ((refreshDevs s env).2 ++ [.diag ("select error: " ++ m)]) ≠ []
        intro hnil
        have hmem : ("select error: " ++ m) ∈
            diags ((refreshDevs s env).2 ++ [.diag ("select error: " ++ m)]) := by
          rw [diags_append]
          refine List.mem_append_right _ ?_
          exact List.mem_cons_self _ _
        rw [hnil] at hmem
        exact absurd hmem (List.not_mem_nil _)
  · intro s reads fd rest dev m hf hr
    unfold processReady
    rw [hf]
    rcases hr with hr | hr
    · rw [hr]
      show diags [.diag ("oserror reading device: " ++ m), .closed dev] ≠ []
      rw [diags_cons_diag]
      exact List.cons_ne_nil _ _
    · rw [hr]
      show diags (.diag ("error processing event: " ++ m) ::
          (processReady s reads rest).2) ≠ []
      rw [diags_cons_diag]
      exact List.cons_ne_nil _ _

/-- A cycle whose `select.select` raises `ValueError`, used by the C9
witness. -/
def envSelErr : CycleEnv := ⟨[candA], [], .valueError "bad fd", []⟩

/-- A thread state monitoring one open keyboard on descriptor 0, used
by the C9 witness. -/
def sReadErr : MonState := ⟨1, [], true, [(0, ⟨"e1", 0, kbCaps, true⟩)], 1⟩

/-- Witness for the amended C9: a `select` `ValueError` with one open
keyboard produces a printed diagnostic, and so does an `OSError`
raised while reading a monitored ready descriptor. -/
theorem c9_witness :
    diags (runCycle initMonState envSelErr).2.1 ≠ [] ∧
    diags (processReady sReadErr [(0, ReadRes.osError "device gone")] [0]).2 ≠ [] :=
  ⟨c9_scanner_silent_monitor_errors_surfaced.2.1 initMonState envSelErr rfl
      (by decide) (by decide) (by intro ready h; simp [envSelErr] at h),
    c9_scanner_silent_monitor_errors_surfaced.2.2 sReadErr
      [(0, ReadRes.osError "device gone")] 0 [] ⟨"e1", 0, kbCaps, true⟩
      "device gone" (by decide) (Or.inl (by decide))⟩

end TypingTutor
